import Mathlib

/-!
Shallow embedding of the SorryDB LLM client engine
(src/sorrydb/llm_client/llm_client.py): the tactic splitter
(LLMClient._split_proof), the proof verifier (LLMClient._check_proof) and
the synthesis orchestrator loop (LLMClient.solve_sorry_db).

Machine strings are modelled as lists of characters; Python methods map to
explicit list operations. Fallible Python code (uncaught IndexError or
KeyError) is modelled with Option: a result of none is an uncaught
exception, some r is a normal return of r.
-/

deriving instance DecidableEq for Except

namespace SorryDB

/-! ### Python string primitives on lists of characters -/

/-- Python whitespace test for the characters relevant here. -/
def isWS (c : Char) : Bool := c.isWhitespace

/-- Python text.split with separator a newline: every newline separates;
the empty text yields one empty line. -/
def splitLines : List Char → List (List Char)
  | [] => [[]]
  | c :: rest =>
    if c = '\n' then [] :: splitLines rest
    else
      match splitLines rest with
      | [] => [[c]]
      | l :: ls => (c :: l) :: ls

/-- Python sep.join with separator a newline. -/
def joinLines : List (List Char) → List Char
  | [] => []
  | [l] => l
  | l :: ls => l ++ '\n' :: joinLines ls

/-- Python len(line) minus len(line.lstrip()): the count of leading
whitespace characters. -/
def leadingWS (l : List Char) : Nat := (l.takeWhile isWS).length

/-- Python not line.strip(): the line is empty or all whitespace. -/
def isBlank (l : List Char) : Bool := l.all isWS

/-- Python line.strip(): drop whitespace from both ends. -/
def trimWS (l : List Char) : List Char :=
  ((l.dropWhile isWS).reverse.dropWhile isWS).reverse

/-- Python: if line.endswith(";"): line = line[:-1]. -/
def stripSemi (l : List Char) : List Char :=
  if l.getLast? = some ';' then l.dropLast else l

/-! ### The tactic splitter, LLMClient._split_proof -/

/-- Python tactics[-1] += "\n" + line: append a continuation line to the
last tactic; none models the IndexError raised when the list is empty. -/
def appendToLast (line : List Char) : List (List Char) → Option (List (List Char))
  | [] => none
  | [t] => some [t ++ '\n' :: line]
  | t :: ts => (appendToLast line ts).map (fun us => t :: us)

/-- The token introducing a tactic block. -/
def byTok : List Char := ['b', 'y']

/-- The for-loop of _split_proof: walk the lines, skipping blank lines,
cutting base_indent characters, stripping one trailing semicolon, starting
a new tactic at indentation zero and otherwise appending to the last. -/
def splitLoop (baseIndent : Nat) :
    List (List Char) → List (List Char) → Option (List (List Char))
  | tactics, [] => some tactics
  | tactics, line :: rest =>
    if isBlank line then splitLoop baseIndent tactics rest
    else
      let cut := stripSemi (line.drop baseIndent)
      if leadingWS cut = 0 then splitLoop baseIndent (tactics ++ [cut]) rest
      else
        match appendToLast cut tactics with
        | none => none
        | some tactics' => splitLoop baseIndent tactics' rest

/-- LLMClient._split_proof: split the candidate proof text into tactics.
Drops the first line when it strips to the block introducer, takes the
base indentation from lines[0] (an IndexError, modelled none, when the
list is empty after the drop), then walks the lines. -/
def splitProof (proof : List Char) : Option (List (List Char)) :=
  match splitLines proof with
  | [] => none
  | l0 :: rest =>
    let lines := if trimWS l0 = byTok then rest else l0 :: rest
    match lines with
    | [] => none
    | first :: _ => splitLoop (leadingWS first) [] lines

/-! ### The proof verifier, LLMClient._check_proof

The REPL protocol (spec section 6, implemented by the external checker
behind sorrydb.repro.repl_api): a load request with a cmd field yields a
reply carrying the located sorries, each a position and a proof-state
handle, and no goals field; a tactic request yields a reply carrying
diagnostic messages, optionally a new proof-state handle, and the list of
outstanding goals. -/

/-- A diagnostic message in a checker reply. -/
structure Message where
  severity : String
deriving DecidableEq

/-- A position, one-based line and column. -/
structure Pos where
  line : Nat
  column : Nat
deriving DecidableEq

/-- One entry of the load reply's list of located sorries. -/
structure LocatedGoal where
  pos : Pos
  proofState : Nat
deriving DecidableEq

/-- The reply to a load request with a cmd field. Per the protocol it has
the located sorries and no goals field. -/
structure CmdReply where
  found : List LocatedGoal
deriving DecidableEq

/-- The reply to a tactic request: diagnostic messages (absent means
empty), optionally a new proof-state handle, and the outstanding goals. -/
structure TacticReply where
  messages : List Message
  newState : Option Nat
  goals : List String
deriving DecidableEq

/-- Python: any message in the reply has severity error. -/
def hasError (r : TacticReply) : Bool :=
  r.messages.any (fun m => m.severity == "error")

/-- The for-loop of _check_proof. The checker session is a deterministic
oracle from (proof-state handle, tactic text) to a tactic reply. State
carried through the loop: the current handle, the accumulated
complete_proof, and the goals of the last reply (none while the last
reply is still the load reply, which carries no goals field, so that
reading them raises a KeyError, modelled as the outer none). The second
component of the result is the list of tactics submitted to the session,
in order. -/
def checkTactics (repl : Nat → String → TacticReply) :
    Nat → List String → Option (List String) → List String →
    Option (Option String) × List String
  | _, completeProof, lastGoals, [] =>
    (match lastGoals with
     | none => none
     | some goals =>
       if goals = [] then some (some (String.intercalate "\n" completeProof))
       else some none, [])
  | state, completeProof, _, tactic :: rest =>
    let reply := repl state tactic
    if hasError reply then (some none, [tactic])
    else
      match reply.newState with
      | none => (some none, [tactic])
      | some next =>
        let r := checkTactics repl next (completeProof ++ [tactic]) (some reply.goals) rest
        (r.1, tactic :: r.2)

/-- LLMClient._check_proof: locate the sorry at the obligation's line and
column in the load reply (first match; no match returns None), then run
the tactic loop from its proof-state handle. The second component is the
list of tactics submitted to the checker session. -/
def checkProof (repl : Nat → String → TacticReply) (loadReply : CmdReply)
    (line column : Nat) (proof : List String) :
    Option (Option String) × List String :=
  match loadReply.found.find? (fun s => s.pos.line == line && s.pos.column == column) with
  | none => (some none, [])
  | some s => checkTactics repl s.proofState [] none proof

/-! ### The orchestrator loop, LLMClient.solve_sorry_db -/

/-- One sorry record of the database, with the fields the loop reads: the
stable identifier and the goal's parentType. -/
structure Oblig where
  uuid : String
  parentType : String
deriving DecidableEq

/-- One commit of a repo record, with its sorry records. -/
structure CommitRec where
  obligs : List Oblig
deriving DecidableEq

/-- One repo record of the database. -/
structure RepoRec where
  commits : List CommitRec
deriving DecidableEq

/-- The persisted llm_proofs mapping: identifier to accepted proof text or
null, written after every obligation. -/
abbrev ProofMap := List (String × Option String)

/-- Python dict assignment llm_proofs[uuid] = v: overwrite in place when
the key is present, append otherwise. -/
def setEntry (m : ProofMap) (k : String) (v : Option String) : ProofMap :=
  if m.any (fun e => e.1 == k) then
    m.map (fun e => if e.1 == k then (k, v) else e)
  else m ++ [(k, v)]

/-- The inner loop over one commit's filtered sorries. The generator and
verifier pipeline _solve_sorry is an oracle: none models an uncaught
exception raised during the attempt (for instance a capability-level
generator error in _invoke_model), some r its returned value. The state
is the persisted proof map together with the list of obligations for
which _solve_sorry was invoked, in order; error carries the state at the
moment an exception propagates out of the loop (the map already persisted
to disk keeps its last written value). -/
def runObligLoop (attempt : Oblig → Option (Option String)) :
    List Oblig → ProofMap × List Oblig →
    Except (ProofMap × List Oblig) (ProofMap × List Oblig)
  | [], st => .ok st
  | s :: rest, (proofs, calls) =>
    match attempt s with
    | none => .error (proofs, calls ++ [s])
    | some r => runObligLoop attempt rest (setEntry proofs s.uuid r, calls ++ [s])

/-- One commit of solve_sorry_db: keep only the sorries whose goal's
parentType is Prop, then run the inner loop (when the filtered list is
empty the repo setup is skipped and the state is unchanged, which the
loop also yields). -/
def processCommit (attempt : Oblig → Option (Option String)) (c : CommitRec)
    (st : ProofMap × List Oblig) :
    Except (ProofMap × List Oblig) (ProofMap × List Oblig) :=
  runObligLoop attempt (c.obligs.filter (fun s => s.parentType == "Prop")) st

/-- The loop over a repo's commits; an uncaught exception propagates. -/
def processCommits (attempt : Oblig → Option (Option String)) :
    List CommitRec → ProofMap × List Oblig →
    Except (ProofMap × List Oblig) (ProofMap × List Oblig)
  | [], st => .ok st
  | c :: cs, st =>
    match processCommit attempt c st with
    | .error e => .error e
    | .ok st' => processCommits attempt cs st'

/-- The loop over the database's repos; an uncaught exception propagates. -/
def processRepos (attempt : Oblig → Option (Option String)) :
    List RepoRec → ProofMap × List Oblig →
    Except (ProofMap × List Oblig) (ProofMap × List Oblig)
  | [], st => .ok st
  | r :: rs, st =>
    match processCommits attempt r.commits st with
    | .error e => .error e
    | .ok st' => processRepos attempt rs st'

/-- LLMClient.solve_sorry_db: run every repo, commit and Prop sorry of the
database, starting from an empty persisted map. -/
def solveDb (attempt : Oblig → Option (Option String)) (repos : List RepoRec) :
    Except (ProofMap × List Oblig) (ProofMap × List Oblig) :=
  processRepos attempt repos ([], [])

/-- The persisted state of a finished or aborted run: on an abort the
output file keeps the map written just before the exception. -/
def persisted : Except (ProofMap × List Oblig) (ProofMap × List Oblig) →
    ProofMap × List Oblig
  | .ok st => st
  | .error st => st

/-- All sorry records of a database. -/
def dbObligs (repos : List RepoRec) : List Oblig :=
  repos.flatMap (fun r => r.commits.flatMap (fun c => c.obligs))

/-! ### Observations on the checker oracle, used to state verifier claims -/

/-- A tactic reply that the loop accepts: no error diagnostic and a new
proof-state handle present. -/
def stepOk (r : TacticReply) : Bool := !hasError r && r.newState.isSome

/-- The handle carried forward after a reply (0 is a dummy for the
rejected case, in which the loop has already returned). -/
def nextState (r : TacticReply) : Nat := r.newState.getD 0

/-- The handle reached after submitting a list of tactics in order. -/
def stateAfter (repl : Nat → String → TacticReply) : Nat → List String → Nat
  | st, [] => st
  | st, t :: rest => stateAfter repl (nextState (repl st t)) rest

/-- Every reply along a list of tactics is accepted. -/
def stepsOk (repl : Nat → String → TacticReply) : Nat → List String → Bool
  | _, [] => true
  | st, t :: rest => stepOk (repl st t) && stepsOk repl (nextState (repl st t)) rest

/-- The goals of the last reply after submitting a list of tactics, given
the goals before (none while still at the load reply). -/
def lastGoalsAfter (repl : Nat → String → TacticReply) :
    Nat → Option (List String) → List String → Option (List String)
  | _, lg, [] => lg
  | st, _, t :: rest => lastGoalsAfter repl (nextState (repl st t)) (some (repl st t).goals) rest

/-! ### Shape predicates on splitter output, used to state when
re-splitting the newline-join of a tactic list reproduces it -/

/-- A line that the walk copies verbatim at base indentation zero: not
blank and without a trailing semicolon to strip. -/
def cleanLine (l : List Char) : Bool := !isBlank l && l.getLast? != some ';'

/-- A continuation line: clean and indented. -/
def contLine (l : List Char) : Bool := cleanLine l && leadingWS l != 0

/-- A tactic whose lines re-split exactly: a clean unindented first line
followed by continuation lines. -/
def cleanTactic (t : List Char) : Bool :=
  match splitLines t with
  | [] => false
  | l0 :: rest => cleanLine l0 && leadingWS l0 == 0 && rest.all contLine

/-- A tactic list whose join re-splits exactly: every tactic clean and
the first one not starting with the block introducer line. -/
def cleanTactics (ts : List (List Char)) : Bool :=
  ts.all cleanTactic &&
    match ts with
    | [] => true
    | t :: _ => trimWS ((splitLines t).headD []) != byTok

end SorryDB

namespace SorryDB

/-! ### Lemmas about line splitting and joining -/

lemma splitLines_ne_nil (s : List Char) : splitLines s ≠ [] := by
  cases s with
  | nil => simp [splitLines]
  | cons c rest =>
    unfold splitLines
    by_cases h : c = '\n'
    · simp [h]
    · simp only [if_neg h]
      cases splitLines rest <;> simp

lemma splitLines_no_newline (l : List Char) (h : '\n' ∉ l) : splitLines l = [l] := by
  induction l with
  | nil => rfl
  | cons c rest ih =>
    have hc : c ≠ '\n' := fun hh => h (hh ▸ List.mem_cons_self c rest)
    have hr : '\n' ∉ rest := fun hh => h (List.mem_cons_of_mem c hh)
    unfold splitLines
    rw [if_neg hc, ih hr]

lemma splitLines_cons (c : Char) (rest : List Char) :
    splitLines (c :: rest) =
      if c = '\n' then [] :: splitLines rest
      else
        match splitLines rest with
        | [] => [[c]]
        | l :: ls => (c :: l) :: ls := rfl

lemma splitLines_append_newline (a b : List Char) :
    splitLines (a ++ '\n' :: b) = splitLines a ++ splitLines b := by
  induction a with
  | nil => simp [splitLines]
  | cons c rest ih =>
    rw [List.cons_append, splitLines_cons, splitLines_cons]
    by_cases h : c = '\n'
    · rw [if_pos h, if_pos h, ih, List.cons_append]
    · rw [if_neg h, if_neg h, ih]
      obtain ⟨l, ls, hls⟩ : ∃ l ls, splitLines rest = l :: ls := by
        cases hx : splitLines rest with
        | nil => exact absurd hx (splitLines_ne_nil rest)
        | cons l ls => exact ⟨l, ls, rfl⟩
      rw [hls]
      simp

lemma joinLines_splitLines (s : List Char) : joinLines (splitLines s) = s := by
  induction s with
  | nil => rfl
  | cons c rest ih =>
    unfold splitLines
    by_cases h : c = '\n'
    · rw [if_pos h]
      obtain ⟨l, ls, hls⟩ : ∃ l ls, splitLines rest = l :: ls := by
        cases hx : splitLines rest with
        | nil => exact absurd hx (splitLines_ne_nil rest)
        | cons l ls => exact ⟨l, ls, rfl⟩
      rw [hls] at ih ⊢
      simpa [joinLines, h] using ih
    · rw [if_neg h]
      obtain ⟨l, ls, hls⟩ : ∃ l ls, splitLines rest = l :: ls := by
        cases hx : splitLines rest with
        | nil => exact absurd hx (splitLines_ne_nil rest)
        | cons l ls => exact ⟨l, ls, rfl⟩
      rw [hls] at ih ⊢
      cases ls with
      | nil => simpa [joinLines] using ih
      | cons l2 ls2 => simpa [joinLines] using ih

lemma splitLines_joinLines_flat (ts : List (List Char)) (h : ts ≠ []) :
    splitLines (joinLines ts) = ts.flatMap splitLines := by
  induction ts with
  | nil => exact absurd rfl h
  | cons t ts ih =>
    cases ts with
    | nil => simp [joinLines, List.flatMap_cons]
    | cons t2 ts2 =>
      have : joinLines (t :: t2 :: ts2) = t ++ '\n' :: joinLines (t2 :: ts2) := rfl
      rw [this, splitLines_append_newline, ih (by simp)]
      simp [List.flatMap_cons]

lemma joinLines_glue (p l : List Char) (rest : List (List Char)) :
    joinLines ((p ++ '\n' :: l) :: rest) = joinLines (p :: l :: rest) := by
  cases rest with
  | nil => rfl
  | cons r rs => simp [joinLines]

lemma appendToLast_concat (line p : List Char) (acc : List (List Char)) :
    appendToLast line (acc ++ [p]) = some (acc ++ [p ++ '\n' :: line]) := by
  induction acc with
  | nil => rfl
  | cons a as ih =>
    have h3 : appendToLast line ((a :: as) ++ [p]) =
        (appendToLast line (as ++ [p])).map (fun us => a :: us) := by
      rcases has : as ++ [p] with _ | ⟨q, qs⟩
      · exact absurd has (by simp)
      · rw [List.cons_append, has]
        rfl
    rw [h3, ih]
    simp

/-! ### Lemmas about the splitter walk -/

lemma splitLoop_blank (b : Nat) (tactics : List (List Char)) (line : List Char)
    (rest : List (List Char)) (h : isBlank line = true) :
    splitLoop b tactics (line :: rest) = splitLoop b tactics rest := by
  conv_lhs => unfold splitLoop
  simp [h]

lemma splitLoop_zero (b : Nat) (tactics : List (List Char)) (line : List Char)
    (rest : List (List Char)) (h : isBlank line = false)
    (h2 : leadingWS (stripSemi (line.drop b)) = 0) :
    splitLoop b tactics (line :: rest) =
      splitLoop b (tactics ++ [stripSemi (line.drop b)]) rest := by
  conv_lhs => unfold splitLoop
  simp [h, h2]

lemma splitLoop_cont (b : Nat) (tactics : List (List Char)) (line : List Char)
    (rest : List (List Char)) (h : isBlank line = false)
    (h2 : leadingWS (stripSemi (line.drop b)) ≠ 0) :
    splitLoop b tactics (line :: rest) =
      match appendToLast (stripSemi (line.drop b)) tactics with
      | none => none
      | some ts => splitLoop b ts rest := by
  conv_lhs => unfold splitLoop
  simp [h, h2]

lemma contLine_spec (l : List Char) (h : contLine l = true) :
    isBlank l = false ∧ l.getLast? ≠ some ';' ∧ leadingWS l ≠ 0 := by
  simp only [contLine, cleanLine, Bool.and_eq_true, Bool.not_eq_true', bne_iff_ne,
    ne_eq] at h
  exact ⟨h.1.1, h.1.2, h.2⟩

lemma splitLoop_continuations (rest : List (List Char)) :
    ∀ (acc : List (List Char)) (p : List Char) (more : List (List Char)),
    rest.all contLine = true →
    splitLoop 0 (acc ++ [p]) (rest ++ more) =
      splitLoop 0 (acc ++ [joinLines (p :: rest)]) more := by
  induction rest with
  | nil =>
    intro acc p more _
    simp [joinLines]
  | cons l ls ih =>
    intro acc p more hall
    rw [List.all_cons, Bool.and_eq_true] at hall
    obtain ⟨hblank, hsemi, hindent⟩ := contLine_spec l hall.1
    have hcut : stripSemi (l.drop 0) = l := by
      rw [List.drop_zero, stripSemi, if_neg hsemi]
    rw [List.cons_append, splitLoop_cont 0 _ l _ hblank (by rw [hcut]; exact hindent),
      hcut, appendToLast_concat]
    show splitLoop 0 (acc ++ [p ++ '\n' :: l]) (ls ++ more) = _
    rw [ih acc (p ++ '\n' :: l) more hall.2, joinLines_glue]

lemma cleanTactic_spec (t : List Char) (h : cleanTactic t = true) :
    ∃ l0 rest, splitLines t = l0 :: rest ∧ isBlank l0 = false ∧
      l0.getLast? ≠ some ';' ∧ leadingWS l0 = 0 ∧ rest.all contLine = true := by
  obtain ⟨l0, rest, hls⟩ : ∃ l0 rest, splitLines t = l0 :: rest := by
    cases hx : splitLines t with
    | nil => exact absurd hx (splitLines_ne_nil t)
    | cons l0 rest => exact ⟨l0, rest, rfl⟩
  refine ⟨l0, rest, hls, ?_⟩
  rw [cleanTactic, hls] at h
  simp only [cleanLine, Bool.and_eq_true, Bool.not_eq_true', bne_iff_ne, ne_eq,
    beq_iff_eq] at h
  exact ⟨h.1.1.1, h.1.1.2, h.1.2, h.2⟩

lemma splitLoop_clean (ts : List (List Char)) :
    ∀ (acc more : List (List Char)), ts.all cleanTactic = true →
    splitLoop 0 acc (ts.flatMap splitLines ++ more) = splitLoop 0 (acc ++ ts) more := by
  induction ts with
  | nil =>
    intro acc more _
    simp
  | cons t ts ih =>
    intro acc more hall
    rw [List.all_cons, Bool.and_eq_true] at hall
    obtain ⟨l0, rest, hls, hblank, hsemi, hindent, hcont⟩ := cleanTactic_spec t hall.1
    have hcut : stripSemi (l0.drop 0) = l0 := by
      rw [List.drop_zero, stripSemi, if_neg hsemi]
    rw [List.flatMap_cons, hls, List.append_assoc, List.cons_append,
      splitLoop_zero 0 acc l0 _ hblank (by rw [hcut]; exact hindent), hcut,
      splitLoop_continuations rest acc l0 _ hcont]
    have ht : joinLines (l0 :: rest) = t := by rw [← hls, joinLines_splitLines]
    rw [ht, ih (acc ++ [t]) more hall.2, List.append_assoc]
    rfl

/-! ### Further helpers for the indentation claims -/

lemma leadingWS_drop_leadingWS (l : List Char) : leadingWS (l.drop (leadingWS l)) = 0 := by
  induction l with
  | nil => rfl
  | cons c cs ih =>
    by_cases h : isWS c = true
    · have hstep : leadingWS (c :: cs) = leadingWS cs + 1 := by
        simp [leadingWS, List.takeWhile_cons, h]
      rw [hstep]
      simpa using ih
    · have h0 : leadingWS (c :: cs) = 0 := by
        simp [leadingWS, List.takeWhile_cons, h]
      rw [h0, List.drop_zero]
      exact h0

lemma trimWS_of_isBlank (l : List Char) (h : isBlank l = true) : trimWS l = [] := by
  have hd : l.dropWhile isWS = [] := by
    rw [List.dropWhile_eq_nil_iff]
    intro x hx
    exact List.all_eq_true.mp h x hx
  simp [trimWS, hd]

/-! ### Lemmas about the verifier loop -/

lemma stepOk_spec (r : TacticReply) (h : stepOk r = true) :
    hasError r = false ∧ ∃ n, r.newState = some n := by
  simp only [stepOk, Bool.and_eq_true, Bool.not_eq_true'] at h
  exact ⟨h.1, Option.isSome_iff_exists.mp h.2⟩

lemma checkTactics_cons_ok (repl : Nat → String → TacticReply) (st : Nat)
    (cp : List String) (lg : Option (List String)) (t : String) (rest : List String)
    (hok : stepOk (repl st t) = true) :
    checkTactics repl st cp lg (t :: rest) =
      ((checkTactics repl (nextState (repl st t)) (cp ++ [t]) (some (repl st t).goals) rest).1,
       t :: (checkTactics repl (nextState (repl st t)) (cp ++ [t]) (some (repl st t).goals) rest).2) := by
  obtain ⟨h1, n, hn⟩ := stepOk_spec _ hok
  conv_lhs => unfold checkTactics
  simp [h1, hn, nextState]

lemma checkTactics_append (repl : Nat → String → TacticReply) (pre : List String) :
    ∀ (st : Nat) (cp : List String) (lg : Option (List String)) (rest : List String),
    stepsOk repl st pre = true →
    checkTactics repl st cp lg (pre ++ rest) =
      ((checkTactics repl (stateAfter repl st pre) (cp ++ pre)
          (lastGoalsAfter repl st lg pre) rest).1,
       pre ++ (checkTactics repl (stateAfter repl st pre) (cp ++ pre)
          (lastGoalsAfter repl st lg pre) rest).2) := by
  induction pre with
  | nil =>
    intro st cp lg rest _
    simp [stateAfter, lastGoalsAfter]
  | cons t pre ih =>
    intro st cp lg rest hok
    rw [stepsOk, Bool.and_eq_true] at hok
    rw [List.cons_append, checkTactics_cons_ok repl st cp lg t (pre ++ rest) hok.1,
      ih (nextState (repl st t)) (cp ++ [t]) (some (repl st t).goals) rest hok.2]
    simp only [stateAfter, lastGoalsAfter, List.cons_append]
    rw [← List.append_cons]

lemma lastGoalsAfter_concat (repl : Nat → String → TacticReply) (pre : List String) :
    ∀ (st : Nat) (lg : Option (List String)) (t : String),
    lastGoalsAfter repl st lg (pre ++ [t]) = some (repl (stateAfter repl st pre) t).goals := by
  induction pre with
  | nil =>
    intro st lg t
    simp [lastGoalsAfter, stateAfter]
  | cons q pre ih =>
    intro st lg t
    rw [List.cons_append]
    show lastGoalsAfter repl (nextState (repl st q)) (some (repl st q).goals) (pre ++ [t]) = _
    rw [ih]
    rfl

/-! ### Lemmas about the orchestrator loop -/

lemma runObligLoop_cons (attempt : Oblig → Option (Option String)) (s : Oblig)
    (rest : List Oblig) (proofs : ProofMap) (calls : List Oblig) :
    runObligLoop attempt (s :: rest) (proofs, calls) =
      match attempt s with
      | none => .error (proofs, calls ++ [s])
      | some r => runObligLoop attempt rest (setEntry proofs s.uuid r, calls ++ [s]) := rfl

lemma processCommits_cons (attempt : Oblig → Option (Option String)) (c : CommitRec)
    (cs : List CommitRec) (st : ProofMap × List Oblig) :
    processCommits attempt (c :: cs) st =
      match processCommit attempt c st with
      | .error e => .error e
      | .ok st' => processCommits attempt cs st' := rfl

lemma processRepos_cons (attempt : Oblig → Option (Option String)) (r : RepoRec)
    (rs : List RepoRec) (st : ProofMap × List Oblig) :
    processRepos attempt (r :: rs) st =
      match processCommits attempt r.commits st with
      | .error e => .error e
      | .ok st' => processRepos attempt rs st' := rfl

lemma runObligLoop_error (attempt : Oblig → Option (Option String)) (pre : List Oblig) :
    ∀ (s : Oblig) (post : List Oblig) (proofs : ProofMap) (calls : List Oblig),
    (∀ x ∈ pre, (attempt x).isSome = true) → attempt s = none →
    runObligLoop attempt (pre ++ s :: post) (proofs, calls) =
      .error (pre.foldl (fun m x => setEntry m x.uuid ((attempt x).join)) proofs,
        calls ++ pre ++ [s]) := by
  induction pre with
  | nil =>
    intro s post proofs calls _ hs
    rw [List.nil_append, runObligLoop_cons, hs]
    simp
  | cons x pre ih =>
    intro s post proofs calls hpre hs
    obtain ⟨r, hr⟩ := Option.isSome_iff_exists.mp (hpre x (List.mem_cons_self x pre))
    rw [List.cons_append, runObligLoop_cons, hr]
    show runObligLoop attempt (pre ++ s :: post) (setEntry proofs x.uuid r, calls ++ [x]) = _
    rw [ih s post _ _ (fun y hy => hpre y (List.mem_cons_of_mem x hy)) hs]
    rw [List.foldl_cons, hr]
    simp [List.append_assoc]

lemma splitProof_eval (proof l0 : List Char) (rest : List (List Char))
    (h : splitLines proof = l0 :: rest) (hby : trimWS l0 ≠ byTok) :
    splitProof proof = splitLoop (leadingWS l0) [] (l0 :: rest) := by
  simp only [splitProof, h, if_neg hby]

lemma splitProof_eval_by_cons (proof l0 r0 : List Char) (rs : List (List Char))
    (h : splitLines proof = l0 :: r0 :: rs) (hby : trimWS l0 = byTok) :
    splitProof proof = splitLoop (leadingWS r0) [] (r0 :: rs) := by
  simp only [splitProof, h, if_pos hby]

lemma filter_prop_split (pre : List Oblig) (s : Oblig) (post : List Oblig)
    (hpreP : ∀ x ∈ pre, x.parentType = "Prop") (hsP : s.parentType = "Prop") :
    (pre ++ s :: post).filter (fun x => x.parentType == "Prop") =
      pre ++ s :: post.filter (fun x => x.parentType == "Prop") := by
  rw [List.filter_append, List.filter_cons_of_pos (by simp [hsP]),
    List.filter_eq_self.mpr]
  intro a ha
  simp [hpreP a ha]

lemma mem_keys_setEntry (m : ProofMap) (key : String) (v : Option String) (k : String)
    (h : k ∈ (setEntry m key v).map Prod.fst) : k ∈ m.map Prod.fst ∨ k = key := by
  unfold setEntry at h
  by_cases hc : m.any (fun e => e.1 == key) = true
  · rw [if_pos hc] at h
    simp only [List.map_map, List.mem_map, Function.comp] at h
    obtain ⟨a, ha, hk⟩ := h
    by_cases hak : (a.1 == key) = true
    · right
      rw [if_pos hak] at hk
      exact hk.symm
    · left
      rw [if_neg hak] at hk
      exact List.mem_map.mpr ⟨a, ha, hk⟩
  · rw [if_neg hc] at h
    rw [List.map_append, List.mem_append] at h
    rcases h with h | h
    · exact Or.inl h
    · right
      simpa using h

lemma persisted_runObligLoop (attempt : Oblig → Option (Option String)) (ss : List Oblig) :
    ∀ (st : ProofMap × List Oblig),
    (∀ x ∈ (persisted (runObligLoop attempt ss st)).2, x ∈ st.2 ∨ x ∈ ss) ∧
    (∀ k ∈ (persisted (runObligLoop attempt ss st)).1.map Prod.fst,
      k ∈ st.1.map Prod.fst ∨ k ∈ ss.map Oblig.uuid) := by
  induction ss with
  | nil =>
    intro st
    constructor
    · intro x hx
      exact Or.inl (by simpa [runObligLoop, persisted] using hx)
    · intro k hk
      exact Or.inl (by simpa [runObligLoop, persisted] using hk)
  | cons s ss ih =>
    intro st
    obtain ⟨proofs, calls⟩ := st
    rw [runObligLoop_cons]
    cases ha : attempt s with
    | none =>
      constructor
      · intro x hx
        simp only [persisted] at hx
        rcases List.mem_append.mp hx with h | h
        · exact Or.inl h
        · exact Or.inr (by rw [List.mem_singleton.mp h]; exact List.mem_cons_self s ss)
      · intro k hk
        simp only [persisted] at hk
        exact Or.inl hk
    | some r =>
      constructor
      · intro x hx
        rcases (ih (setEntry proofs s.uuid r, calls ++ [s])).1 x hx with h | h
        · rcases List.mem_append.mp h with h1 | h1
          · exact Or.inl h1
          · exact Or.inr (by rw [List.mem_singleton.mp h1]; exact List.mem_cons_self s ss)
        · exact Or.inr (List.mem_cons_of_mem s h)
      · intro k hk
        rcases (ih (setEntry proofs s.uuid r, calls ++ [s])).2 k hk with h | h
        · rcases mem_keys_setEntry proofs s.uuid r k h with h1 | h1
          · exact Or.inl h1
          · exact Or.inr (by simp [h1])
        · exact Or.inr (by simp only [List.map_cons, List.mem_cons]; exact Or.inr h)

lemma persisted_processCommits (attempt : Oblig → Option (Option String))
    (cs : List CommitRec) :
    ∀ (st : ProofMap × List Oblig),
    (∀ x ∈ (persisted (processCommits attempt cs st)).2, x ∈ st.2 ∨
      x ∈ cs.flatMap (fun c => c.obligs.filter (fun s => s.parentType == "Prop"))) ∧
    (∀ k ∈ (persisted (processCommits attempt cs st)).1.map Prod.fst,
      k ∈ st.1.map Prod.fst ∨
      k ∈ (cs.flatMap (fun c => c.obligs.filter (fun s => s.parentType == "Prop"))).map
        Oblig.uuid) := by
  induction cs with
  | nil =>
    intro st
    constructor
    · intro x hx
      exact Or.inl (by simpa [processCommits, persisted] using hx)
    · intro k hk
      exact Or.inl (by simpa [processCommits, persisted] using hk)
  | cons c cs ih =>
    intro st
    rw [processCommits_cons]
    cases hc : processCommit attempt c st with
    | error e =>
      have he : e = persisted (processCommit attempt c st) := by rw [hc]; rfl
      constructor
      · intro x hx
        simp only [persisted] at hx
        rw [he] at hx
        rcases (persisted_runObligLoop attempt _ st).1 x hx with h | h
        · exact Or.inl h
        · exact Or.inr (by simp only [List.flatMap_cons, List.mem_append]; exact Or.inl h)
      · intro k hk
        simp only [persisted] at hk
        rw [he] at hk
        rcases (persisted_runObligLoop attempt _ st).2 k hk with h | h
        · exact Or.inl h
        · exact Or.inr (by
            simp only [List.flatMap_cons, List.map_append, List.mem_append]
            exact Or.inl h)
    | ok st' =>
      have he : st' = persisted (processCommit attempt c st) := by rw [hc]; rfl
      constructor
      · intro x hx
        rcases (ih st').1 x hx with h | h
        · rw [he] at h
          rcases (persisted_runObligLoop attempt _ st).1 x h with h1 | h1
          · exact Or.inl h1
          · exact Or.inr (by simp only [List.flatMap_cons, List.mem_append]; exact Or.inl h1)
        · exact Or.inr (by simp only [List.flatMap_cons, List.mem_append]; exact Or.inr h)
      · intro k hk
        rcases (ih st').2 k hk with h | h
        · rw [he] at h
          rcases (persisted_runObligLoop attempt _ st).2 k h with h1 | h1
          · exact Or.inl h1
          · exact Or.inr (by
              simp only [List.flatMap_cons, List.map_append, List.mem_append]
              exact Or.inl h1)
        · exact Or.inr (by
            simp only [List.flatMap_cons, List.map_append, List.mem_append]
            exact Or.inr h)

lemma persisted_processRepos (attempt : Oblig → Option (Option String))
    (rs : List RepoRec) :
    ∀ (st : ProofMap × List Oblig),
    (∀ x ∈ (persisted (processRepos attempt rs st)).2, x ∈ st.2 ∨
      x ∈ rs.flatMap (fun rp => rp.commits.flatMap
        (fun c => c.obligs.filter (fun s => s.parentType == "Prop")))) ∧
    (∀ k ∈ (persisted (processRepos attempt rs st)).1.map Prod.fst,
      k ∈ st.1.map Prod.fst ∨
      k ∈ (rs.flatMap (fun rp => rp.commits.flatMap
        (fun c => c.obligs.filter (fun s => s.parentType == "Prop")))).map Oblig.uuid) := by
  induction rs with
  | nil =>
    intro st
    constructor
    · intro x hx
      exact Or.inl (by simpa [processRepos, persisted] using hx)
    · intro k hk
      exact Or.inl (by simpa [processRepos, persisted] using hk)
  | cons rp rs ih =>
    intro st
    rw [processRepos_cons]
    cases hc : processCommits attempt rp.commits st with
    | error e =>
      have he : e = persisted (processCommits attempt rp.commits st) := by rw [hc]; rfl
      constructor
      · intro x hx
        simp only [persisted] at hx
        rw [he] at hx
        rcases (persisted_processCommits attempt _ st).1 x hx with h | h
        · exact Or.inl h
        · exact Or.inr (by simp only [List.flatMap_cons, List.mem_append]; exact Or.inl h)
      · intro k hk
        simp only [persisted] at hk
        rw [he] at hk
        rcases (persisted_processCommits attempt _ st).2 k hk with h | h
        · exact Or.inl h
        · exact Or.inr (by
            simp only [List.flatMap_cons, List.map_append, List.mem_append]
            exact Or.inl h)
    | ok st' =>
      have he : st' = persisted (processCommits attempt rp.commits st) := by rw [hc]; rfl
      constructor
      · intro x hx
        rcases (ih st').1 x hx with h | h
        · rw [he] at h
          rcases (persisted_processCommits attempt _ st).1 x h with h1 | h1
          · exact Or.inl h1
          · exact Or.inr (by simp only [List.flatMap_cons, List.mem_append]; exact Or.inl h1)
        · exact Or.inr (by simp only [List.flatMap_cons, List.mem_append]; exact Or.inr h)
      · intro k hk
        rcases (ih st').2 k hk with h | h
        · rw [he] at h
          rcases (persisted_processCommits attempt _ st).2 k h with h1 | h1
          · exact Or.inl h1
          · exact Or.inr (by
              simp only [List.flatMap_cons, List.map_append, List.mem_append]
              exact Or.inl h1)
        · exact Or.inr (by
            simp only [List.flatMap_cons, List.map_append, List.mem_append]
            exact Or.inr h)

/-! ## The claims -/

/-- C10: the splitter is partial at its public interface: on the input
that is exactly the single line of the block introducer it fails with an
out-of-bounds index access (lines is empty after the drop, so reading
lines[0] raises IndexError, modelled none), while on the empty-string
input it returns the empty list. -/
theorem C10_splitter_crash_on_bare_by :
    splitProof ("by".data) = none ∧ splitProof ("".data) = some [] := by
  exact ⟨by decide, by decide⟩

/-- C4 counterexample: a zero-tactic candidate against a load reply that
does locate the obligation's sorry at the requested position makes
_check_proof read the goals field of the load reply, which carries none:
an uncaught KeyError (modelled none), not the rejection the claim
states and not an acceptance. -/
theorem C4_counterexample :
    checkProof (fun _ _ => ⟨[], none, []⟩) ⟨[⟨⟨5, 10⟩, 0⟩]⟩ 5 10 [] = (none, []) ∧
    checkProof (fun _ _ => ⟨[], none, []⟩) ⟨[⟨⟨5, 10⟩, 0⟩]⟩ 5 10 [] ≠ (some none, []) := by
  exact ⟨by decide, by decide⟩

/-- C4 (amended): on a zero-tactic candidate _check_proof crashes with a
KeyError (none), reading the goals of the load reply, whenever the load
reply locates the obligation's sorry; it returns the rejection None only
when the sorry is not found. No tactic is ever submitted. -/
theorem C4_empty_candidate (repl : Nat → String → TacticReply) (loadReply : CmdReply)
    (line column : Nat) :
    checkProof repl loadReply line column [] =
      (if (loadReply.found.find? fun s =>
            s.pos.line == line && s.pos.column == column).isSome
       then none else some none, []) := by
  unfold checkProof
  cases h : loadReply.found.find? (fun s => s.pos.line == line && s.pos.column == column) with
  | none => simp [h]
  | some s => simp [h, checkTactics]

/-- C2: the verifier fails fast: if the reply to tactic k carries an
error-severity diagnostic or no new proof-state handle, _check_proof
returns the rejection None at once and the tactics after k are never
submitted to the checker session. -/
theorem C2_verifier_fail_fast (repl : Nat → String → TacticReply) (loadReply : CmdReply)
    (line column : Nat) (s : LocatedGoal)
    (hfind : loadReply.found.find?
      (fun g => g.pos.line == line && g.pos.column == column) = some s)
    (pre : List String) (t : String) (post : List String)
    (hpre : stepsOk repl s.proofState pre = true)
    (hfail : stepOk (repl (stateAfter repl s.proofState pre) t) = false) :
    checkProof repl loadReply line column (pre ++ t :: post) = (some none, pre ++ [t]) := by
  unfold checkProof
  rw [hfind]
  show checkTactics repl s.proofState [] none (pre ++ t :: post) = _
  rw [checkTactics_append repl pre s.proofState [] none (t :: post) hpre]
  have hstep : checkTactics repl (stateAfter repl s.proofState pre) ([] ++ pre)
      (lastGoalsAfter repl s.proofState none pre) (t :: post) = (some none, [t]) := by
    conv_lhs => unfold checkTactics
    by_cases he : hasError (repl (stateAfter repl s.proofState pre) t) = true
    · simp [he]
    · have he' : hasError (repl (stateAfter repl s.proofState pre) t) = false := by
        cases hx : hasError (repl (stateAfter repl s.proofState pre) t)
        · rfl
        · exact absurd hx he
      rcases hx : (repl (stateAfter repl s.proofState pre) t).newState with _ | n
      · simp [he', hx]
      · rw [stepOk, he', hx] at hfail
        simp at hfail
  rw [hstep]

/-- C3: when all tactics of a nonempty candidate are accepted, after the
last tactic _check_proof returns the newline-join of the full sequence
exactly when the last reply reports zero outstanding goals, and the
rejection None otherwise; every tactic is submitted. -/
theorem C3_terminal_goals_decide (repl : Nat → String → TacticReply) (loadReply : CmdReply)
    (line column : Nat) (s : LocatedGoal)
    (hfind : loadReply.found.find?
      (fun g => g.pos.line == line && g.pos.column == column) = some s)
    (pre : List String) (t : String)
    (hok : stepsOk repl s.proofState (pre ++ [t]) = true) :
    checkProof repl loadReply line column (pre ++ [t]) =
      (if (repl (stateAfter repl s.proofState pre) t).goals = []
        then some (some (String.intercalate "\n" (pre ++ [t])))
        else some none,
       pre ++ [t]) := by
  unfold checkProof
  rw [hfind]
  show checkTactics repl s.proofState [] none (pre ++ [t]) = _
  have happ := checkTactics_append repl (pre ++ [t]) s.proofState [] none [] hok
  rw [List.append_nil] at happ
  rw [happ, lastGoalsAfter_concat]
  simp [checkTactics]

/-- C2 witness: a concrete session in which the first tactic is accepted
and the second is rejected; the verifier rejects and the third tactic is
never submitted. -/
theorem C2_verifier_fail_fast_witness :
    ((⟨[⟨⟨1, 2⟩, 0⟩]⟩ : CmdReply).found.find?
      (fun g => g.pos.line == 1 && g.pos.column == 2) = some ⟨⟨1, 2⟩, 0⟩) ∧
    stepsOk
      (fun st t => if st == 0 && t == "intro x" then ⟨[], some 1, ["g"]⟩
        else ⟨[⟨"error"⟩], none, []⟩) 0 ["intro x"] = true ∧
    stepOk
      ((fun st t => if st == 0 && t == "intro x" then (⟨[], some 1, ["g"]⟩ : TacticReply)
        else ⟨[⟨"error"⟩], none, []⟩)
        (stateAfter (fun st t => if st == 0 && t == "intro x" then ⟨[], some 1, ["g"]⟩
          else ⟨[⟨"error"⟩], none, []⟩) 0 ["intro x"]) "bad") = false ∧
    checkProof
      (fun st t => if st == 0 && t == "intro x" then ⟨[], some 1, ["g"]⟩
        else ⟨[⟨"error"⟩], none, []⟩)
      ⟨[⟨⟨1, 2⟩, 0⟩]⟩ 1 2 (["intro x"] ++ "bad" :: ["never one", "never two"]) =
      (some none, ["intro x", "bad"]) := by
  refine ⟨by decide, by decide, by decide, ?_⟩
  exact C2_verifier_fail_fast _ _ 1 2 ⟨⟨1, 2⟩, 0⟩ (by decide) ["intro x"] "bad"
    ["never one", "never two"] (by decide) (by decide)

/-- C3 witness: the spec's acceptance example: a one-tactic candidate
after which the checker reports zero goals is accepted as that tactic. -/
theorem C3_terminal_goals_decide_witness :
    ((⟨[⟨⟨5, 10⟩, 0⟩]⟩ : CmdReply).found.find?
      (fun g => g.pos.line == 5 && g.pos.column == 10) = some ⟨⟨5, 10⟩, 0⟩) ∧
    stepsOk
      (fun st t => if st == 0 && t == "rfl" then ⟨[], some 1, []⟩
        else ⟨[], some 2, ["g"]⟩) 0 ([] ++ ["rfl"]) = true ∧
    checkProof
      (fun st t => if st == 0 && t == "rfl" then ⟨[], some 1, []⟩
        else ⟨[], some 2, ["g"]⟩)
      ⟨[⟨⟨5, 10⟩, 0⟩]⟩ 5 10 ["rfl"] = (some (some "rfl"), ["rfl"]) := by
  refine ⟨by decide, by decide, ?_⟩
  have h := C3_terminal_goals_decide
    (fun st t => if st == 0 && t == "rfl" then ⟨[], some 1, []⟩ else ⟨[], some 2, ["g"]⟩)
    ⟨[⟨⟨5, 10⟩, 0⟩]⟩ 5 10 ⟨⟨5, 10⟩, 0⟩ (by decide) [] "rfl" (by decide)
  exact h.trans (by decide)

/-- C1 counterexample: a database of two Prop obligations in one commit
where the generator raises on the first: the run aborts with the
exception (error), the failing obligation is not recorded as unsolved in
the persisted map (which stays empty), and the second obligation is
never attempted. -/
theorem C1_counterexample :
    solveDb (fun s => if s.uuid == "a" then none else some (some "rfl"))
      [⟨[⟨[⟨"a", "Prop"⟩, ⟨"b", "Prop"⟩]⟩]⟩] =
      Except.error ([], [⟨"a", "Prop"⟩]) ∧
    (⟨"b", "Prop"⟩ : Oblig) ∉ [(⟨"a", "Prop"⟩ : Oblig)] ∧
    ("a", (none : Option String)) ∉ ([] : ProofMap) := by
  exact ⟨by decide, by decide, by decide⟩

/-- C1 (amended): a capability-level generator error is uncaught: it
propagates out of solve_sorry_db, which aborts. The failing obligation
gets no entry, the obligations after it are never attempted, and the
entries persisted before the failure remain on disk (the error payload
is the map written by the incremental persistence). -/
theorem C1_generator_error_aborts (attempt : Oblig → Option (Option String))
    (pre : List Oblig) (s : Oblig) (post : List Oblig)
    (hpreP : ∀ x ∈ pre, x.parentType = "Prop") (hsP : s.parentType = "Prop")
    (hpre : ∀ x ∈ pre, (attempt x).isSome = true) (hs : attempt s = none) :
    solveDb attempt [⟨[⟨pre ++ s :: post⟩]⟩] =
      Except.error
        (pre.foldl (fun m x => setEntry m x.uuid ((attempt x).join)) [], pre ++ [s]) := by
  unfold solveDb
  rw [processRepos_cons]
  show (match processCommits attempt [CommitRec.mk (pre ++ s :: post)] ([], []) with
    | Except.error e => Except.error e
    | Except.ok st' => processRepos attempt [] st') = _
  rw [processCommits_cons]
  unfold processCommit
  show (match (match runObligLoop attempt
      ((pre ++ s :: post).filter (fun x => x.parentType == "Prop")) ([], []) with
    | Except.error e => Except.error e
    | Except.ok st' => processCommits attempt [] st') with
    | Except.error e => Except.error e
    | Except.ok st' => processRepos attempt [] st') = _
  rw [filter_prop_split pre s post hpreP hsP,
    runObligLoop_error attempt pre s _ [] [] hpre hs]
  simp

/-- C1 witness: a concrete three-obligation commit whose second
obligation's generator raises: the run aborts with only the first entry
persisted and the third obligation unattempted. -/
theorem C1_generator_error_aborts_witness :
    (∀ x ∈ [(⟨"p", "Prop"⟩ : Oblig)], x.parentType = "Prop") ∧
    (⟨"q", "Prop"⟩ : Oblig).parentType = "Prop" ∧
    (∀ x ∈ [(⟨"p", "Prop"⟩ : Oblig)],
      ((fun s : Oblig => if s.uuid == "q" then none else some (some "rfl")) x).isSome
        = true) ∧
    (fun s : Oblig => if s.uuid == "q" then none else some (some "rfl"))
      ⟨"q", "Prop"⟩ = none ∧
    solveDb (fun s : Oblig => if s.uuid == "q" then none else some (some "rfl"))
      [⟨[⟨[⟨"p", "Prop"⟩] ++ ⟨"q", "Prop"⟩ :: [⟨"r", "Prop"⟩]⟩]⟩] =
      Except.error ([("p", some "rfl")], [⟨"p", "Prop"⟩, ⟨"q", "Prop"⟩]) := by
  refine ⟨by decide, by decide, by decide, by decide, ?_⟩
  have h := C1_generator_error_aborts
    (fun s : Oblig => if s.uuid == "q" then none else some (some "rfl"))
    [⟨"p", "Prop"⟩] ⟨"q", "Prop"⟩ [⟨"r", "Prop"⟩]
    (by decide) (by decide) (by decide) (by decide)
  exact h.trans (by decide)

/-- C9: only sorries whose goal's parentType is Prop are ever attempted:
every obligation for which the solver pipeline is invoked has parentType
Prop, a non-Prop obligation is never attempted, and (its identifier being
distinct from every Prop sorry's, identifiers being stable) the
persisted result map holds no entry under its identifier. -/
theorem C9_only_prop_attempted (attempt : Oblig → Option (Option String))
    (repos : List RepoRec) (s : Oblig)
    (hs : s.parentType ≠ "Prop")
    (huuid : ∀ x ∈ dbObligs repos, x.parentType = "Prop" → x.uuid ≠ s.uuid) :
    (∀ x ∈ (persisted (solveDb attempt repos)).2, x.parentType = "Prop") ∧
    s ∉ (persisted (solveDb attempt repos)).2 ∧
    s.uuid ∉ (persisted (solveDb attempt repos)).1.map Prod.fst := by
  have hcalls : ∀ x ∈ (persisted (solveDb attempt repos)).2,
      x ∈ repos.flatMap (fun rp => rp.commits.flatMap
        (fun c => c.obligs.filter (fun y => y.parentType == "Prop"))) := by
    intro x hx
    rcases (persisted_processRepos attempt repos ([], [])).1 x hx with h | h
    · simp at h
    · exact h
  have hflat : ∀ x ∈ repos.flatMap (fun rp => rp.commits.flatMap
        (fun c => c.obligs.filter (fun y => y.parentType == "Prop"))),
      x ∈ dbObligs repos ∧ x.parentType = "Prop" := by
    intro x hx
    simp only [List.mem_flatMap, List.mem_filter] at hx
    obtain ⟨rp, hrp, c, hc, hmem, hprop⟩ := hx
    refine ⟨?_, by simpa using hprop⟩
    unfold dbObligs
    simp only [List.mem_flatMap]
    exact ⟨rp, hrp, c, hc, hmem⟩
  refine ⟨?_, ?_, ?_⟩
  · intro x hx
    exact (hflat x (hcalls x hx)).2
  · intro hx
    exact hs (hflat s (hcalls s hx)).2
  · intro hx
    rcases (persisted_processRepos attempt repos ([], [])).2 s.uuid hx with h | h
    · simp at h
    · simp only [List.mem_map] at h
      obtain ⟨x, hxmem, hxid⟩ := h
      obtain ⟨hxdb, hxprop⟩ := hflat x hxmem
      exact huuid x hxdb hxprop hxid

/-- C9 witness: a concrete database with one non-Prop and one Prop
obligation: only the Prop one is attempted and the non-Prop identifier
never appears in the persisted map. -/
theorem C9_only_prop_attempted_witness :
    ((⟨"n1", "Nat"⟩ : Oblig).parentType ≠ "Prop") ∧
    (∀ x ∈ dbObligs [⟨[⟨[⟨"n1", "Nat"⟩, ⟨"p1", "Prop"⟩]⟩]⟩],
      x.parentType = "Prop" → x.uuid ≠ (⟨"n1", "Nat"⟩ : Oblig).uuid) ∧
    ((∀ x ∈ (persisted (solveDb (fun _ => some (some "rfl"))
        [⟨[⟨[⟨"n1", "Nat"⟩, ⟨"p1", "Prop"⟩]⟩]⟩])).2, x.parentType = "Prop") ∧
      (⟨"n1", "Nat"⟩ : Oblig) ∉ (persisted (solveDb (fun _ => some (some "rfl"))
        [⟨[⟨[⟨"n1", "Nat"⟩, ⟨"p1", "Prop"⟩]⟩]⟩])).2 ∧
      (⟨"n1", "Nat"⟩ : Oblig).uuid ∉ (persisted (solveDb (fun _ => some (some "rfl"))
        [⟨[⟨[⟨"n1", "Nat"⟩, ⟨"p1", "Prop"⟩]⟩]⟩])).1.map Prod.fst) := by
  exact ⟨by decide, by decide,
    C9_only_prop_attempted (fun _ => some (some "rfl")) _ _ (by decide) (by decide)⟩

/-- C5 counterexample: on the input whose first line is two spaces and
whose second line is rfl, the code takes the base indentation 2 from the
blank first line (not 0 from the first non-blank line) and cuts two
characters from rfl, which has less indentation than the base: the output
tactic is the truncated l, not the intact rfl the claim predicts. -/
theorem C5_counterexample :
    splitProof ("  \nrfl".data) = some ["l".data] ∧
    splitProof ("  \nrfl".data) ≠ some ["rfl".data] := by
  exact ⟨by decide, by decide⟩

/-- C5 (amended): the base indentation is the leading-whitespace count of
the first remaining line, blank or not, and every non-blank line has its
first base_indent characters cut unconditionally: a line with less
indentation than the base loses content characters rather than getting a
zero-length strip; no error is raised by the cut itself. -/
theorem C5_base_indent_cut (l0 l : List Char)
    (hn0 : '\n' ∉ l0) (hn1 : '\n' ∉ l)
    (hby : trimWS l0 ≠ byTok)
    (hsemi0 : (l0.drop (leadingWS l0)).getLast? ≠ some ';')
    (hsemi1 : (l.drop (leadingWS l0)).getLast? ≠ some ';')
    (hl : isBlank l = false)
    (hshallow : leadingWS l < leadingWS l0)
    (hcut : leadingWS (l.drop (leadingWS l0)) = 0) :
    splitProof (l0 ++ '\n' :: l) =
      some (if isBlank l0 then [l.drop (leadingWS l0)]
        else [l0.drop (leadingWS l0), l.drop (leadingWS l0)]) := by
  have hsplit : splitLines (l0 ++ '\n' :: l) = [l0, l] := by
    rw [splitLines_append_newline, splitLines_no_newline l0 hn0,
      splitLines_no_newline l hn1]
    rfl
  rw [splitProof_eval _ l0 [l] hsplit hby]
  have hstrip1 : stripSemi (l.drop (leadingWS l0)) = l.drop (leadingWS l0) := by
    rw [stripSemi, if_neg hsemi1]
  have hz1 : leadingWS (stripSemi (l.drop (leadingWS l0))) = 0 := by
    rw [hstrip1]
    exact hcut
  by_cases hb : isBlank l0 = true
  · rw [splitLoop_blank _ _ _ _ hb, splitLoop_zero _ _ _ _ hl hz1, hstrip1, if_pos hb]
    rfl
  · have hb' : isBlank l0 = false := by
      cases hx : isBlank l0
      · rfl
      · exact absurd hx hb
    have hstrip0 : stripSemi (l0.drop (leadingWS l0)) = l0.drop (leadingWS l0) := by
      rw [stripSemi, if_neg hsemi0]
    have hz0 : leadingWS (stripSemi (l0.drop (leadingWS l0))) = 0 := by
      rw [hstrip0]
      exact leadingWS_drop_leadingWS l0
    rw [splitLoop_zero _ _ _ _ hb' hz0, splitLoop_zero _ _ _ _ hl hz1, hstrip0, hstrip1,
      if_neg hb]
    rfl

/-- C5 witness: base indentation 2 from the first line; the shallow
second line rfl is cut to l, so the output is the pair of cut lines. -/
theorem C5_base_indent_cut_witness :
    ('\n' ∉ "  intro x".data) ∧ ('\n' ∉ "rfl".data) ∧
    trimWS ("  intro x".data) ≠ byTok ∧
    (("  intro x".data.drop (leadingWS "  intro x".data)).getLast? ≠ some ';') ∧
    (("rfl".data.drop (leadingWS "  intro x".data)).getLast? ≠ some ';') ∧
    isBlank ("rfl".data) = false ∧
    leadingWS ("rfl".data) < leadingWS ("  intro x".data) ∧
    leadingWS ("rfl".data.drop (leadingWS "  intro x".data)) = 0 ∧
    splitProof ("  intro x".data ++ '\n' :: "rfl".data) =
      some (if isBlank ("  intro x".data)
        then ["rfl".data.drop (leadingWS "  intro x".data)]
        else ["  intro x".data.drop (leadingWS "  intro x".data),
          "rfl".data.drop (leadingWS "  intro x".data)]) := by
  refine ⟨by decide, by decide, by decide, by decide, by decide, by decide, by decide,
    by decide, ?_⟩
  exact C5_base_indent_cut "  intro x".data "rfl".data (by decide) (by decide) (by decide)
    (by decide) (by decide) (by decide) (by decide) (by decide)

/-- C6 counterexample: a continuation line appearing before any
zero-indent line is not skipped: the splitter crashes with an IndexError
(modelled none) instead of returning the empty tactic list. -/
theorem C6_counterexample :
    splitProof ("\n  rfl".data) = none ∧
    splitProof ("\n  rfl".data) ≠ some [] := by
  exact ⟨by decide, by decide⟩

/-- C6 (amended): a continuation line (nonzero indentation after the
base cut) appearing before any zero-indent line has started a tactic
entry makes the splitter fail with an IndexError (modelled none) on
tactics[-1]; the line is not skipped. -/
theorem C6_continuation_first_crashes (proof ws l : List Char) (rest : List (List Char))
    (hsplit : splitLines proof = ws :: l :: rest)
    (hws : isBlank ws = true) (hl : isBlank l = false)
    (hcont : leadingWS (stripSemi (l.drop (leadingWS ws))) ≠ 0) :
    splitProof proof = none := by
  have hby : trimWS ws ≠ byTok := by
    rw [trimWS_of_isBlank ws hws]
    decide
  rw [splitProof_eval proof ws (l :: rest) hsplit hby,
    splitLoop_blank _ _ _ _ hws, splitLoop_cont _ _ _ _ hl hcont]
  rfl

/-- C6 witness: a blank first line followed by an indented line and a
further line: the splitter crashes before reaching the rest. -/
theorem C6_continuation_first_crashes_witness :
    splitLines ("\n   foo\nbar".data) = ["".data, "   foo".data, "bar".data] ∧
    isBlank ("".data) = true ∧
    isBlank ("   foo".data) = false ∧
    leadingWS (stripSemi ("   foo".data.drop (leadingWS "".data))) ≠ 0 ∧
    splitProof ("\n   foo\nbar".data) = none := by
  refine ⟨by decide, by decide, by decide, by decide, ?_⟩
  exact C6_continuation_first_crashes _ "".data "   foo".data ["bar".data]
    (by decide) (by decide) (by decide) (by decide)

/-- C7 counterexample: the code tests the literal first line, not the
first non-empty line, against the block introducer: with a leading blank
line the token by is kept and appears as an output tactic. -/
theorem C7_counterexample :
    splitProof ("\nby\nrfl".data) = some ["by".data, "rfl".data] ∧
    "by".data ∈ ["by".data, "rfl".data] := by
  exact ⟨by decide, by decide⟩

/-- C7 (amended): when the literal first line strips to exactly the
block introducer it is dropped: splitting the first line followed by the
remaining text equals splitting the remaining text alone (whose own
first line must not also strip to the introducer). -/
theorem C7_first_line_by_dropped (l0 tail : List Char)
    (hn0 : '\n' ∉ l0) (hby : trimWS l0 = byTok)
    (htail : trimWS ((splitLines tail).headD []) ≠ byTok) :
    splitProof (l0 ++ '\n' :: tail) = splitProof tail := by
  obtain ⟨r0, rs, hr⟩ : ∃ r0 rs, splitLines tail = r0 :: rs := by
    cases hx : splitLines tail with
    | nil => exact absurd hx (splitLines_ne_nil tail)
    | cons r0 rs => exact ⟨r0, rs, rfl⟩
  have hsplit : splitLines (l0 ++ '\n' :: tail) = l0 :: r0 :: rs := by
    rw [splitLines_append_newline, splitLines_no_newline l0 hn0, hr]
    rfl
  rw [hr] at htail
  rw [splitProof_eval_by_cons _ l0 r0 rs hsplit hby,
    splitProof_eval tail r0 rs hr (by simpa using htail)]

/-- C7 witness: the spec's splitter example: the introducer line is
dropped and the indented block splits into its two tactics. -/
theorem C7_first_line_by_dropped_witness :
    ('\n' ∉ "by".data) ∧ trimWS ("by".data) = byTok ∧
    trimWS ((splitLines ("  intro x\n  exact h x".data)).headD []) ≠ byTok ∧
    splitProof ("by".data ++ '\n' :: "  intro x\n  exact h x".data) =
      splitProof ("  intro x\n  exact h x".data) ∧
    splitProof ("by\n  intro x\n  exact h x".data) =
      some ["intro x".data, "exact h x".data] := by
    refine ⟨by decide, by decide, by decide, ?_, by decide⟩
    exact C7_first_line_by_dropped "by".data "  intro x\n  exact h x".data
      (by decide) (by decide) (by decide)

/-- C8 counterexample: for the text of a blank line followed by the
introducer token, splitting yields the single tactic by, but re-splitting
the join of that output crashes (the introducer is dropped and the line
list is empty): the re-split does not reproduce the split, and not by
terminator stripping. -/
theorem C8_counterexample :
    splitProof ("\nby".data) = some ["by".data] ∧
    splitProof (joinLines ["by".data]) = none := by
  exact ⟨by decide, by decide⟩

/-- C8 (amended): re-splitting the newline-join of the splitter's output
reproduces the tactic list whenever the output is clean: every tactic
made of non-blank lines none of which keeps a trailing semicolon, first
line at indentation zero, continuations indented, and the first tactic
not starting with the bare introducer line. Outside that shape the
round trip can differ, and when the first output tactic is the bare
introducer it crashes. -/
theorem C8_resplit_of_join (text : List Char) (ts : List (List Char))
    (hsplit : splitProof text = some ts) (hclean : cleanTactics ts = true) :
    splitProof (joinLines ts) = splitProof text := by
  rw [hsplit]
  simp only [cleanTactics, Bool.and_eq_true] at hclean
  cases ts with
  | nil => decide
  | cons t ts' =>
    have hct : cleanTactic t = true := by
      have h1 := hclean.1
      rw [List.all_cons, Bool.and_eq_true] at h1
      exact h1.1
    obtain ⟨l0, rest0, hls, hblank, hsemi, hindent, hcont⟩ := cleanTactic_spec t hct
    have hflat : splitLines (joinLines (t :: ts')) = (t :: ts').flatMap splitLines :=
      splitLines_joinLines_flat _ (by simp)
    have hhead : (t :: ts').flatMap splitLines = l0 :: (rest0 ++ ts'.flatMap splitLines) := by
      rw [List.flatMap_cons, hls]
      rfl
    have hby : trimWS l0 ≠ byTok := by
      have h2 : (trimWS ((splitLines t).headD []) != byTok) = true := hclean.2
      rw [hls] at h2
      simpa using h2
    rw [splitProof_eval (joinLines (t :: ts')) l0 (rest0 ++ ts'.flatMap splitLines)
      (by rw [hflat, hhead]) hby, hindent]
    have hrepack : l0 :: (rest0 ++ ts'.flatMap splitLines) =
        (t :: ts').flatMap splitLines ++ [] := by
      rw [List.append_nil, hhead]
    rw [hrepack, splitLoop_clean (t :: ts') [] [] hclean.1]
    rfl

/-- C8 witness: a two-tactic output with a continuation line and a
stripped terminator: re-splitting the join reproduces the split. -/
theorem C8_resplit_of_join_witness :
    splitProof ("intro x\n  exact h x\nrfl;".data) =
      some ["intro x\n  exact h x".data, "rfl".data] ∧
    cleanTactics ["intro x\n  exact h x".data, "rfl".data] = true ∧
    splitProof (joinLines ["intro x\n  exact h x".data, "rfl".data]) =
      splitProof ("intro x\n  exact h x\nrfl;".data) := by
  refine ⟨by decide, by decide, ?_⟩
  exact C8_resplit_of_join "intro x\n  exact h x\nrfl;".data
    ["intro x\n  exact h x".data, "rfl".data] (by decide) (by decide)

end SorryDB


